import Mathlib

/-!
Verification of the clipboard action-popup program (single C++ source file).

This file is a shallow embedding of the program's core: the pure text
transforms, the clipboard watcher / debouncer / menu-controller state
machine, the fallback external-reader merging performed by the poll
operation, and the popup grid pagination.  Theorems at the end of the file
settle the specified properties against these definitions.

Text is modelled as a list of Unicode code points (`List Nat`); case
mapping and the whitespace class are modelled on the ASCII range, which is
the range the source's regular-expression whitespace class matches by
default.
-/

/-- Text is a sequence of Unicode code points. -/
abbrev Str := List Nat

/-- The code points of a string literal, for writing concrete inputs. -/
def strToCodes (s : String) : Str := s.data.map Char.toNat

/-- Code points matched by the whitespace class used in the source
(tab, line feed, vertical tab, form feed, carriage return, space). -/
def isWs (c : Nat) : Bool :=
  c == 9 || c == 10 || c == 11 || c == 12 || c == 13 || c == 32

/-- Uppercasing of one code point, from `QString::toUpper` restricted to
the ASCII letter range. -/
def toUpperChar (c : Nat) : Nat := if 97 ≤ c ∧ c ≤ 122 then c - 32 else c

/-- Lowercasing of one code point, from `QString::toLower` restricted to
the ASCII letter range. -/
def toLowerChar (c : Nat) : Nat := if 65 ≤ c ∧ c ≤ 90 then c + 32 else c

/-- The UPPERCASE transform: `text.toUpper()` in the source. -/
def toUpperStr (s : Str) : Str := s.map toUpperChar

/-- The lowercase transform: `text.toLower()` in the source. -/
def toLowerStr (s : Str) : Str := s.map toLowerChar

/-- One pass of the source's `result.replace(QRegularExpression("\\s+"), " ")`:
each maximal run of whitespace becomes a single space (code point 32).  The
boolean argument records whether the previously processed character was
part of a whitespace run. -/
def collapseWsAux : Bool → Str → Str
  | _, [] => []
  | prevWs, c :: rest =>
      if isWs c then
        if prevWs then collapseWsAux true rest
        else 32 :: collapseWsAux true rest
      else c :: collapseWsAux false rest

/-- Replace every run of whitespace by a single space. -/
def collapseWs (s : Str) : Str := collapseWsAux false s

/-- Remove leading whitespace, as the front half of `QString::trimmed`. -/
def dropLeadWs : Str → Str
  | [] => []
  | c :: rest => if isWs c then dropLeadWs rest else c :: rest

/-- Remove trailing whitespace, as the back half of `QString::trimmed`. -/
def dropTrailWs : Str → Str
  | [] => []
  | c :: rest =>
      let r := dropTrailWs rest
      if r.isEmpty && isWs c then [] else c :: r

/-- The source's `QString::trimmed`: strip whitespace from both ends. -/
def trim (s : Str) : Str := dropTrailWs (dropLeadWs s)

/-- The source's `normalizeWhitespace`: collapse whitespace runs to single
spaces, then trim both ends. -/
def normalizeWhitespace (s : Str) : Str := trim (collapseWs s)

/-- Split on the space character keeping empty parts, as
`QString::split(' ')` before empty parts are skipped. -/
def splitOnSp : Str → List Str
  | [] => [[]]
  | c :: rest =>
      let r := splitOnSp rest
      if c == 32 then [] :: r
      else
        match r with
        | [] => [[c]]
        | w :: ws => (c :: w) :: ws

/-- The source's `split(' ', Qt::SkipEmptyParts)`. -/
def splitWordsSp (s : Str) : List Str :=
  (splitOnSp s).filter (fun w => !w.isEmpty)

/-- Join parts with single spaces, as `QStringList::join(' ')`. -/
def joinSp : List Str → Str
  | [] => []
  | [w] => w
  | w :: ws => w ++ 32 :: joinSp ws

/-- The per-word step of `toTitleCase`: uppercase the first character and
lowercase the rest of the word. -/
def titleWord : Str → Str
  | [] => []
  | c :: rest => toUpperChar c :: rest.map toLowerChar

/-- The source's `toTitleCase`: normalize whitespace, split into words on
spaces skipping empty parts, title-case each word, and join with spaces. -/
def toTitleCase (s : Str) : Str :=
  joinSp ((splitWordsSp (normalizeWhitespace s)).map titleWord)

/-- Whether the first character, if any, is not whitespace. -/
def noLeadWs : Str → Bool
  | [] => true
  | c :: _ => !isWs c

/-- Whether the last character, if any, is not whitespace. -/
def noTrailWs : Str → Bool
  | [] => true
  | [c] => !isWs c
  | _ :: c :: rest => noTrailWs (c :: rest)

/-- Whether every whitespace character is a single space not preceded by
whitespace; the boolean records whether the previous character was
whitespace. -/
def wsOkAux : Bool → Str → Bool
  | _, [] => true
  | prevWs, c :: rest =>
      if isWs c then !prevWs && c == 32 && wsOkAux true rest
      else wsOkAux false rest

/-- The code points of the substitution token recognised by `expandArgs`
(an opening brace, the word text, a closing brace). -/
def placeholder : Str := [123, 116, 101, 120, 116, 125]

/-- Fuelled scan of `QString::replace(pattern, text)` specialised to the
six-character placeholder token: scanning left to right, each occurrence is
replaced and scanning continues after the inserted replacement.  The fuel
is an upper bound on the number of scanned characters. -/
def expandArgAux (text : Str) : Nat → Str → Str
  | _, [] => []
  | 0, s => s
  | fuel + 1, c :: rest =>
      if (c :: rest).take 6 = placeholder then
        text ++ expandArgAux text fuel ((c :: rest).drop 6)
      else c :: expandArgAux text fuel rest

/-- Replace every occurrence of the placeholder token in one argument by
the captured text. -/
def expandArg (text arg : Str) : Str := expandArgAux text arg.length arg

/-- The source's `expandArgs`: placeholder substitution applied to every
argument of an external action's template. -/
def expandArgs (args : List Str) (text : Str) : List Str :=
  args.map (expandArg text)

/-- The two observed clipboard channels (`QClipboard::Mode` values used by
the source). -/
inductive Slot
  | clipboard
  | selection
deriving DecidableEq

/-- The effect carried by a menu action, replacing the source's closures:
the two self-initiated clipboard writes and the detached external command
launch with already-expanded arguments. -/
inductive Effect
  | setClip (t : Str)
  | setClipPlain (t : Str)
  | runExternal (command : String) (args : List Str)
deriving DecidableEq

/-- One entry of the action list handed to the popup (`MenuAction` in the
source, with the handler closure represented by an `Effect`). -/
structure MenuActionM where
  label : String
  effect : Effect
  enabled : Bool
  icon : String
deriving DecidableEq

/-- A user-defined external action (`ExternalAction` in the source). -/
structure ExternalActionM where
  label : String
  command : String
  args : List Str
  icon : String
deriving DecidableEq

/-- The controller configuration fields the modelled operations read
(effective settings after environment overrides, plus the loaded external
action list). -/
structure Config where
  pollEnabled : Bool
  wlPasteEnabled : Bool
  wlPasteMode : String
  externals : List ExternalActionM
deriving DecidableEq

/-- Externally visible outputs of a controller step: a popup display
request, a clipboard write (plain `setText` or mime-data variant), an
external fallback read (selection side flag and timeout bound), and a
detached command launch. -/
inductive Out
  | showPopup (text : Str) (actions : List MenuActionM)
  | writeClipboard (t : Str)
  | writeClipboardPlain (t : Str)
  | wlRead (primarySel : Bool) (timeoutMs : Nat)
  | launchExternal (command : String) (args : List Str)
deriving DecidableEq

/-- The mutable state of `PopupController`: the suppression flag, the slot
whose change is pending for debounced evaluation, whether the single-shot
debounce timer is armed, popup visibility and currently displayed content,
whether the poll timer is running, and the stored last-known texts. -/
structure CtrlState where
  suppressNext : Bool
  pendingMode : Slot
  debounceArmed : Bool
  popupVisible : Bool
  pollRunning : Bool
  lastText : Str
  lastClipboardText : Str
  lastSelectionText : Str
  popupContent : Option (Str × List MenuActionM)
deriving DecidableEq

/-- The controller's initial state, from the member initialisers. -/
def initState : CtrlState :=
  ⟨false, Slot.clipboard, false, false, false, [], [], [], none⟩

/-- The debounce quiet period in milliseconds set on the single-shot
timer. -/
def debounceIntervalMs : Nat := 120

/-- The timeout bound passed to every fallback external read. -/
def wlPasteTimeoutMs : Nat := 200

/-- A change notification for one slot (`onClipboardChanged` or
`onSelectionChanged`): when the suppression flag is set it is cleared and
nothing else happens; otherwise the slot is recorded as pending and the
single-shot debounce timer is (re)started. -/
def onChanged (sl : Slot) (s : CtrlState) : CtrlState × List Out :=
  if s.suppressNext then ({ s with suppressNext := false }, [])
  else ({ s with pendingMode := sl, debounceArmed := true }, [])

/-- The source's `setClipboardText`: set the suppression flag, remember
the text, and write the clipboard. -/
def setClipboardText (t : Str) (s : CtrlState) : CtrlState × List Out :=
  ({ s with suppressNext := true, lastText := t }, [Out.writeClipboard t])

/-- The source's `setClipboardPlainText`: set the suppression flag,
remember the text, and write the clipboard through mime data. -/
def setClipboardPlainText (t : Str) (s : CtrlState) : CtrlState × List Out :=
  ({ s with suppressNext := true, lastText := t }, [Out.writeClipboardPlain t])

/-- The six built-in actions constructed by `showMenu`, in source order,
each bound to the captured text. -/
def builtinActions (t : Str) : List MenuActionM :=
  [ ⟨"UPPERCASE", Effect.setClip (toUpperStr t), true, "sp:SP_ArrowUp"⟩,
    ⟨"lowercase", Effect.setClip (toLowerStr t), true, "sp:SP_ArrowDown"⟩,
    ⟨"Title Case", Effect.setClip (toTitleCase t), true, "sp:SP_FileDialogDetailedView"⟩,
    ⟨"Normalize Whitespace", Effect.setClip (normalizeWhitespace t), true, "sp:SP_BrowserReload"⟩,
    ⟨"Paste and Match Style", Effect.setClipPlain t, true, "sp:SP_DialogResetButton"⟩,
    ⟨"Copy to Clipboard", Effect.setClip t, true, "sp:SP_DialogOpenButton"⟩ ]

/-- The wrapper built for one external action: launch its command with the
placeholder-expanded arguments. -/
def externalMenuAction (t : Str) (e : ExternalActionM) : MenuActionM :=
  ⟨e.label, Effect.runExternal e.command (expandArgs e.args t), true, e.icon⟩

/-- The full action list built by `showMenu`: built-ins followed by all
loaded external actions in declaration order. -/
def menuActions (cfg : Config) (t : Str) : List MenuActionM :=
  builtinActions t ++ cfg.externals.map (externalMenuAction t)

/-- The source's `showMenu`: skipped entirely while a popup is visible;
otherwise mark the popup visible, stop the poll timer when polling is
enabled, build the action list, and hand it to the popup. -/
def showMenu (cfg : Config) (t : Str) (s : CtrlState) : CtrlState × List Out :=
  if s.popupVisible then (s, [])
  else
    ({ s with
        popupVisible := true,
        pollRunning := if cfg.pollEnabled then false else s.pollRunning,
        popupContent := some (t, menuActions cfg t) },
      [Out.showPopup t (menuActions cfg t)])

/-- The source's `showMenuIfNeededWithText`: empty text is ignored,
otherwise the text is remembered and the menu shown. -/
def showMenuIfNeededWithText (cfg : Config) (t : Str) (s : CtrlState) :
    CtrlState × List Out :=
  if t = [] then (s, [])
  else showMenu cfg t { s with lastText := t }

/-- The source's `showMenuIfNeeded` (the debounce timeout handler): read
the pending slot's current text, trim it, and evaluate it.  `env` gives
the current text of each slot. -/
def showMenuIfNeeded (cfg : Config) (env : Slot → Str) (s : CtrlState) :
    CtrlState × List Out :=
  showMenuIfNeededWithText cfg (trim (env s.pendingMode)) s

/-- Events serialized onto the controller's event loop that the claims
mention: change notifications on each slot and the debounce timer firing. -/
inductive Ev
  | clipChanged
  | selChanged
  | fire
deriving DecidableEq

/-- The change notification event for a slot. -/
def changeEvOf : Slot → Ev
  | Slot.clipboard => Ev.clipChanged
  | Slot.selection => Ev.selChanged

/-- One controller step.  The debounce timer is single-shot: it only fires
while armed, and firing disarms it. -/
def step (cfg : Config) (env : Slot → Str) : Ev → CtrlState → CtrlState × List Out
  | Ev.clipChanged, s => onChanged Slot.clipboard s
  | Ev.selChanged, s => onChanged Slot.selection s
  | Ev.fire, s =>
      if s.debounceArmed then
        showMenuIfNeeded cfg env { s with debounceArmed := false }
      else (s, [])

/-- Run a sequence of events, accumulating the outputs in order. -/
def processEvents (cfg : Config) (env : Slot → Str) :
    List Ev → CtrlState → CtrlState × List Out
  | [], s => (s, [])
  | e :: rest, s =>
      let r := step cfg env e s
      let r' := processEvents cfg env rest r.1
      (r'.1, r.2 ++ r'.2)

/-- The source's `readWlPaste` viewed through the outcome of the spawned
process: `none` models a timeout (the process is killed and failure is
reported), `some (exitOk, out)` models a finished process with its exit
status and standard output, which is returned trimmed. -/
def readWlPaste (res : Option (Bool × Str)) : Str × Bool :=
  match res with
  | none => ([], false)
  | some r => (trim r.2, r.1)

/-- The fallback merge for one slot inside `pollClipboard`: when the
fallback read runs and succeeds with non-empty text, its result replaces
the primary read, otherwise the primary read stands. -/
def effSlotText (doRead : Bool) (primaryText : Str) (res : Option (Bool × Str)) : Str :=
  if doRead then
    let r := readWlPaste res
    if r.2 && !r.1.isEmpty then r.1 else primaryText
  else primaryText

/-- The fallback reads performed by one poll, in order: the clipboard side
unless the mode is primary-only, then the selection side unless the mode
is clipboard-only, each bounded by the 200ms timeout. -/
def wlReadsOf (cfg : Config) : List Out :=
  if cfg.wlPasteEnabled then
    (if cfg.wlPasteMode ≠ "primary" then [Out.wlRead false wlPasteTimeoutMs] else []) ++
      (if cfg.wlPasteMode ≠ "clipboard" then [Out.wlRead true wlPasteTimeoutMs] else [])
  else []

/-- The source's `pollClipboard`: read and trim both slots, overlay the
fallback reads per mode, then for each slot in order compare against the
stored last-known value; on a difference store the new value and, when it
is non-empty, mark the slot pending and evaluate it immediately. -/
def pollClipboard (cfg : Config) (rawClip rawSel : Str)
    (resClip resSel : Option (Bool × Str)) (s : CtrlState) : CtrlState × List Out :=
  let clip := effSlotText (cfg.wlPasteEnabled && cfg.wlPasteMode ≠ "primary")
    (trim rawClip) resClip
  let sel := effSlotText (cfg.wlPasteEnabled && cfg.wlPasteMode ≠ "clipboard")
    (trim rawSel) resSel
  let r1 :=
    if clip = s.lastClipboardText then (s, [])
    else
      let s1 := { s with lastClipboardText := clip }
      if clip = [] then (s1, [])
      else showMenuIfNeededWithText cfg clip { s1 with pendingMode := Slot.clipboard }
  let r2 :=
    if sel = r1.1.lastSelectionText then (r1.1, [])
    else
      let s2 := { r1.1 with lastSelectionText := sel }
      if sel = [] then (s2, [])
      else showMenuIfNeededWithText cfg sel { s2 with pendingMode := Slot.selection }
  (r2.1, wlReadsOf cfg ++ r1.2 ++ r2.2)

/-- Selecting a menu action executes its handler: the two self-initiated
clipboard writes go through `setClipboardText` / `setClipboardPlainText`
(each sets the suppression flag first), and an external action launches
its command detached. -/
def applyEffect : Effect → CtrlState → CtrlState × List Out
  | Effect.setClip t, s => setClipboardText t s
  | Effect.setClipPlain t, s => setClipboardPlainText t s
  | Effect.runExternal cmd args, s => (s, [Out.launchExternal cmd args])

/-- One rendered cell of the popup grid row: an action button carrying its
index in the visible action list, the two page-navigation buttons with
their enabled flags, or a fixed-size spacer. -/
inductive Cell
  | action (idx : Nat)
  | navPrev (enabled : Bool)
  | navNext (enabled : Bool)
  | spacer
deriving DecidableEq

/-- Whether a cell is an action button. -/
def isActionCell : Cell → Bool
  | Cell.action _ => true
  | _ => false

/-- Whether a cell is one of the two navigation buttons. -/
def isNavCell : Cell → Bool
  | Cell.navPrev _ => true
  | Cell.navNext _ => true
  | _ => false

/-- The page count computed by `rebuildGrid`: one page without paging,
otherwise the rounding-up division of the action count by the page size. -/
def totalPages (perRow total : Nat) : Nat :=
  if perRow < total then (total + (max 1 perRow) - 1) / (max 1 perRow) else 1

/-- The current page clamped into range, as `qBound(0, page, totalPages-1)`
with a non-negative page. -/
def clampPage (perRow total page : Nat) : Nat :=
  min page (totalPages perRow total - 1)

/-- The row of cells built by `rebuildGrid` for `total` visible actions,
`perRow` action slots per page and requested page `page`: action buttons
fill the leading columns of the current page, the two navigation buttons
occupy the two reserved trailing columns when paging is needed, and any
remaining column holds a spacer. -/
def gridCells (perRow total page : Nat) : List Cell :=
  let spp := max 1 perRow
  let tp := totalPages perRow total
  let pg := clampPage perRow total page
  let cols := perRow + (if perRow < total then 2 else 0)
  let start := pg * spp
  let endI := min total (start + spp)
  (List.range cols).map (fun col =>
    if start + col < endI then Cell.action (start + col)
    else if perRow < total ∧ col = cols - 2 then Cell.navPrev (decide (0 < pg))
    else if perRow < total ∧ col = cols - 1 then Cell.navNext (decide (pg + 1 < tp))
    else Cell.spacer)

/-- A minimal configuration for concrete instantiations: polling and the
fallback reader disabled, no external actions. -/
def sampleCfg : Config := ⟨false, false, "primary", []⟩

/-- A sample external action whose argument template carries the
placeholder token. -/
def sampleExternal : ExternalActionM := ⟨"Echo", "echo", [strToCodes "--text", placeholder], ""⟩

/-- A configuration with polling, the fallback reader in mode both, and
one external action. -/
def sampleCfgExt : Config := ⟨true, true, "both", [sampleExternal]⟩

/-- A sample clipboard environment: both slots currently hold " abc ". -/
def sampleEnv : Slot → Str := fun _ => strToCodes " abc "

/-- The initial state with the popup marked visible. -/
def popupOpenState : CtrlState := { initState with popupVisible := true }

lemma dropTrailWs_cons (c : Nat) (rest : Str) :
    dropTrailWs (c :: rest) =
      if (dropTrailWs rest).isEmpty && isWs c then [] else c :: dropTrailWs rest := rfl

lemma wsOkAux_collapseWsAux (s : Str) : ∀ b, wsOkAux b (collapseWsAux b s) = true := by
  induction s with
  | nil => intro b; rfl
  | cons c rest ih =>
      intro b
      by_cases h : isWs c
      · cases b with
        | true => simpa [collapseWsAux, h] using ih true
        | false => simpa [collapseWsAux, wsOkAux, h] using ih true
      · simpa [collapseWsAux, wsOkAux, h] using ih false

lemma wsOkAux_mono {s : Str} {b : Bool} (h : wsOkAux b s = true) :
    wsOkAux false s = true := by
  cases s with
  | nil => rfl
  | cons c rest =>
      by_cases hc : isWs c
      · cases b with
        | false => exact h
        | true => simp [wsOkAux, hc] at h
      · simpa [wsOkAux, hc] using h

lemma wsOkAux_dropLeadWs {s : Str} (h : wsOkAux false s = true) :
    wsOkAux false (dropLeadWs s) = true := by
  induction s with
  | nil => rfl
  | cons c rest ih =>
      by_cases hc : isWs c
      · simp only [wsOkAux, hc, if_true, Bool.and_eq_true] at h
        simp only [dropLeadWs, hc, if_true]
        exact ih (wsOkAux_mono h.2)
      · simpa [dropLeadWs, hc] using h

lemma wsOkAux_dropTrailWs {s : Str} : ∀ b, wsOkAux b s = true →
    wsOkAux b (dropTrailWs s) = true := by
  induction s with
  | nil => intro b _; rfl
  | cons c rest ih =>
      intro b h
      by_cases hc : isWs c
      · simp only [wsOkAux, hc, if_true, Bool.and_eq_true, Bool.not_eq_true',
          beq_iff_eq] at h
        obtain ⟨⟨hb, h32⟩, hrest⟩ := h
        subst hb
        subst h32
        rw [dropTrailWs_cons]
        by_cases he : (dropTrailWs rest).isEmpty
        · simp [he, hc, wsOkAux]
        · simp only [he, Bool.false_and, Bool.and_false, if_neg, Bool.false_eq_true,
            not_false_iff]
          simp only [wsOkAux, hc, if_true]
          simpa using ih true hrest
      · simp only [wsOkAux, hc, if_false] at h
        rw [dropTrailWs_cons]
        simp only [hc, Bool.and_false, if_neg, Bool.false_eq_true, not_false_iff]
        simp only [wsOkAux, hc, if_false]
        exact ih false h

lemma collapseWsAux_eq_self {s : Str} : ∀ b, wsOkAux b s = true →
    collapseWsAux b s = s := by
  induction s with
  | nil => intro b _; rfl
  | cons c rest ih =>
      intro b h
      by_cases hc : isWs c
      · simp only [wsOkAux, hc, if_true, Bool.and_eq_true, Bool.not_eq_true',
          beq_iff_eq] at h
        obtain ⟨⟨hb, h32⟩, hrest⟩ := h
        subst hb
        subst h32
        simp [collapseWsAux, hc, ih true hrest]
      · simp only [wsOkAux, hc, if_false] at h
        simp [collapseWsAux, hc, ih false h]

lemma noLeadWs_dropLeadWs (s : Str) : noLeadWs (dropLeadWs s) = true := by
  induction s with
  | nil => rfl
  | cons c rest ih =>
      by_cases hc : isWs c
      · simpa [dropLeadWs, hc] using ih
      · simp [dropLeadWs, noLeadWs, hc]

lemma noLeadWs_dropTrailWs {s : Str} (h : noLeadWs s = true) :
    noLeadWs (dropTrailWs s) = true := by
  cases s with
  | nil => rfl
  | cons c rest =>
      simp only [noLeadWs, Bool.not_eq_true'] at h
      rw [dropTrailWs_cons]
      simp [h, noLeadWs]

lemma noTrailWs_dropTrailWs (s : Str) : noTrailWs (dropTrailWs s) = true := by
  induction s with
  | nil => rfl
  | cons c rest ih =>
      rw [dropTrailWs_cons]
      cases hr : dropTrailWs rest with
      | nil =>
          by_cases hc : isWs c
          · simp [hc, noTrailWs]
          · simp [hc, noTrailWs]
      | cons d t =>
          simp only [List.isEmpty_cons, Bool.false_and, if_neg, Bool.false_eq_true,
            not_false_iff]
          simp only [noTrailWs]
          rw [← hr]
          exact ih

lemma dropLeadWs_eq_self {s : Str} (h : noLeadWs s = true) : dropLeadWs s = s := by
  cases s with
  | nil => rfl
  | cons c rest =>
      simp only [noLeadWs, Bool.not_eq_true'] at h
      simp [dropLeadWs, h]

lemma dropTrailWs_eq_self {s : Str} (h : noTrailWs s = true) : dropTrailWs s = s := by
  induction s with
  | nil => rfl
  | cons c rest ih =>
      cases rest with
      | nil =>
          simp only [noTrailWs, Bool.not_eq_true'] at h
          rw [dropTrailWs_cons]
          simp [h, dropTrailWs]
      | cons d t =>
          simp only [noTrailWs] at h
          have hr : dropTrailWs (d :: t) = d :: t := ih h
          rw [dropTrailWs_cons, hr]
          simp

lemma wsOk_normalizeWhitespace (s : Str) :
    wsOkAux false (normalizeWhitespace s) = true :=
  wsOkAux_dropTrailWs false (wsOkAux_dropLeadWs (wsOkAux_collapseWsAux s false))

lemma noLeadWs_normalizeWhitespace (s : Str) :
    noLeadWs (normalizeWhitespace s) = true :=
  noLeadWs_dropTrailWs (noLeadWs_dropLeadWs (collapseWs s))

lemma noTrailWs_normalizeWhitespace (s : Str) :
    noTrailWs (normalizeWhitespace s) = true :=
  noTrailWs_dropTrailWs (dropLeadWs (collapseWs s))

lemma normalizeWhitespace_of_normed {s : Str} (h1 : wsOkAux false s = true)
    (h2 : noLeadWs s = true) (h3 : noTrailWs s = true) :
    normalizeWhitespace s = s := by
  unfold normalizeWhitespace collapseWs trim
  rw [collapseWsAux_eq_self false h1, dropLeadWs_eq_self h2, dropTrailWs_eq_self h3]

lemma normalizeWhitespace_idem (s : Str) :
    normalizeWhitespace (normalizeWhitespace s) = normalizeWhitespace s :=
  normalizeWhitespace_of_normed (wsOk_normalizeWhitespace s)
    (noLeadWs_normalizeWhitespace s) (noTrailWs_normalizeWhitespace s)

lemma toUpperChar_idem (c : Nat) : toUpperChar (toUpperChar c) = toUpperChar c := by
  unfold toUpperChar
  split_ifs <;> omega

lemma toLowerChar_idem (c : Nat) : toLowerChar (toLowerChar c) = toLowerChar c := by
  unfold toLowerChar
  split_ifs <;> omega

lemma toUpperStr_idem (s : Str) : toUpperStr (toUpperStr s) = toUpperStr s := by
  unfold toUpperStr
  rw [List.map_map]
  exact List.map_congr_left (fun c _ => toUpperChar_idem c)

lemma toLowerStr_idem (s : Str) : toLowerStr (toLowerStr s) = toLowerStr s := by
  unfold toLowerStr
  rw [List.map_map]
  exact List.map_congr_left (fun c _ => toLowerChar_idem c)

lemma isWs_iff (c : Nat) :
    isWs c = true ↔ c = 9 ∨ c = 10 ∨ c = 11 ∨ c = 12 ∨ c = 13 ∨ c = 32 := by
  simp [isWs, or_assoc]

lemma isWs_eq_false_iff (c : Nat) :
    isWs c = false ↔ c ≠ 9 ∧ c ≠ 10 ∧ c ≠ 11 ∧ c ≠ 12 ∧ c ≠ 13 ∧ c ≠ 32 := by
  simp [isWs, and_assoc]

lemma isWs_toUpperChar {c : Nat} (h : isWs c = false) : isWs (toUpperChar c) = false := by
  rw [isWs_eq_false_iff] at h ⊢
  unfold toUpperChar
  split_ifs <;> omega

lemma isWs_toLowerChar {c : Nat} (h : isWs c = false) : isWs (toLowerChar c) = false := by
  rw [isWs_eq_false_iff] at h ⊢
  unfold toLowerChar
  split_ifs <;> omega

lemma joinSp_cons_of_ne (w : Str) {ws : List Str} (h : ws ≠ []) :
    joinSp (w :: ws) = w ++ 32 :: joinSp ws := by
  cases ws with
  | nil => exact absurd rfl h
  | cons w2 ws2 => rfl

lemma splitOnSp_no_sp {w : Str} (h : ∀ c ∈ w, c ≠ 32) : splitOnSp w = [w] := by
  induction w with
  | nil => rfl
  | cons c rest ih =>
      have hc : c ≠ 32 := h c (List.mem_cons_self c rest)
      have hr : splitOnSp rest = [rest] := ih (fun d hd => h d (List.mem_cons_of_mem c hd))
      simp [splitOnSp, hr, hc]

lemma splitOnSp_append_sep {w : Str} (t : Str) (h : ∀ c ∈ w, c ≠ 32) :
    splitOnSp (w ++ 32 :: t) = w :: splitOnSp t := by
  induction w with
  | nil => simp [splitOnSp]
  | cons c rest ih =>
      have hc : c ≠ 32 := h c (List.mem_cons_self c rest)
      have hr : splitOnSp (rest ++ 32 :: t) = rest :: splitOnSp t :=
        ih (fun d hd => h d (List.mem_cons_of_mem c hd))
      simp [splitOnSp, hr, hc]

lemma splitWordsSp_joinSp {W : List Str}
    (h : ∀ w ∈ W, w ≠ [] ∧ ∀ c ∈ w, c ≠ 32) : splitWordsSp (joinSp W) = W := by
  induction W with
  | nil => rfl
  | cons w ws ih =>
      have hw := h w (List.mem_cons_self w ws)
      cases ws with
      | nil =>
          show splitWordsSp (joinSp [w]) = [w]
          unfold splitWordsSp
          show ((splitOnSp w).filter fun v => !v.isEmpty) = [w]
          rw [splitOnSp_no_sp hw.2]
          cases hx : w with
          | nil => exact absurd hx hw.1
          | cons a b => simp [hx, List.filter]
      | cons w2 ws2 =>
          rw [joinSp_cons_of_ne w (by simp)]
          unfold splitWordsSp
          rw [splitOnSp_append_sep (joinSp (w2 :: ws2)) hw.2]
          have ihr : splitWordsSp (joinSp (w2 :: ws2)) = w2 :: ws2 :=
            ih (fun v hv => h v (List.mem_cons_of_mem w hv))
          unfold splitWordsSp at ihr
          cases hx : w with
          | nil => exact absurd hx hw.1
          | cons a b => simp only [List.filter, hx] at ihr ⊢; simp [ihr]

lemma wsOkAux_of_no_ws {w : Str} (h : ∀ c ∈ w, isWs c = false) :
    ∀ b, wsOkAux b w = true := by
  induction w with
  | nil => intro b; rfl
  | cons c rest ih =>
      intro b
      have hc := h c (List.mem_cons_self c rest)
      simp only [wsOkAux, hc, if_false, Bool.false_eq_true]
      exact ih (fun d hd => h d (List.mem_cons_of_mem c hd)) false

lemma wsOkAux_append_no_ws {w : Str} (hne : w ≠ [])
    (h : ∀ c ∈ w, isWs c = false) (t : Str) :
    ∀ b, wsOkAux b (w ++ t) = wsOkAux false t := by
  induction w with
  | nil => exact absurd rfl hne
  | cons c rest ih =>
      intro b
      have hc := h c (List.mem_cons_self c rest)
      cases rest with
      | nil => simp [wsOkAux, hc]
      | cons d rest2 =>
          have := ih (by simp) (fun e he => h e (List.mem_cons_of_mem c he)) b
          simp only [List.cons_append, wsOkAux, hc, if_false, Bool.false_eq_true]
          exact ih (by simp) (fun e he => h e (List.mem_cons_of_mem c he)) false

lemma wsOkAux_joinSp {W : List Str}
    (h : ∀ w ∈ W, w ≠ [] ∧ ∀ c ∈ w, isWs c = false) :
    ∀ b, wsOkAux b (joinSp W) = true := by
  induction W with
  | nil => intro b; rfl
  | cons w ws ih =>
      intro b
      have hw := h w (List.mem_cons_self w ws)
      cases ws with
      | nil => exact wsOkAux_of_no_ws hw.2 b
      | cons w2 ws2 =>
          rw [joinSp_cons_of_ne w (by simp)]
          rw [wsOkAux_append_no_ws hw.1 hw.2 _ b]
          simp only [wsOkAux, show isWs 32 = true from rfl, if_true]
          have := ih (fun v hv => h v (List.mem_cons_of_mem w hv)) true
          simp [this]

lemma noLeadWs_joinSp {W : List Str}
    (h : ∀ w ∈ W, w ≠ [] ∧ ∀ c ∈ w, isWs c = false) :
    noLeadWs (joinSp W) = true := by
  cases W with
  | nil => rfl
  | cons w ws =>
      have hw := h w (List.mem_cons_self w ws)
      cases hx : w with
      | nil => exact absurd hx hw.1
      | cons a b =>
          have ha : isWs a = false := hw.2 a (by rw [hx]; exact List.mem_cons_self a b)
          cases ws with
          | nil => simp [joinSp, hx, noLeadWs, ha]
          | cons w2 ws2 =>
              rw [joinSp_cons_of_ne (a :: b) (by simp)]
              simp [noLeadWs, ha]

lemma noTrailWs_cons_of_ne (c : Nat) {l : Str} (h : l ≠ []) :
    noTrailWs (c :: l) = noTrailWs l := by
  cases l with
  | nil => exact absurd rfl h
  | cons d t => rfl

lemma noTrailWs_append {t : Str} (w : Str) (h : t ≠ []) :
    noTrailWs (w ++ t) = noTrailWs t := by
  induction w with
  | nil => rfl
  | cons c rest ih =>
      rw [List.cons_append, noTrailWs_cons_of_ne c (by simp [h]), ih]

lemma noTrailWs_of_no_ws {w : Str} (h : ∀ c ∈ w, isWs c = false) :
    noTrailWs w = true := by
  induction w with
  | nil => rfl
  | cons c rest ih =>
      cases rest with
      | nil => simpa [noTrailWs] using h c (List.mem_cons_self c [])
      | cons d t =>
          rw [noTrailWs_cons_of_ne c (by simp)]
          exact ih (fun e he => h e (List.mem_cons_of_mem c he))

lemma joinSp_ne_nil {W : List Str} (hne : W ≠ []) (h : ∀ w ∈ W, w ≠ []) :
    joinSp W ≠ [] := by
  cases W with
  | nil => exact absurd rfl hne
  | cons w ws =>
      have hw := h w (List.mem_cons_self w ws)
      cases ws with
      | nil => exact hw
      | cons w2 ws2 =>
          rw [joinSp_cons_of_ne w (by simp)]
          simp [hw]

lemma noTrailWs_joinSp {W : List Str}
    (h : ∀ w ∈ W, w ≠ [] ∧ ∀ c ∈ w, isWs c = false) :
    noTrailWs (joinSp W) = true := by
  induction W with
  | nil => rfl
  | cons w ws ih =>
      have hw := h w (List.mem_cons_self w ws)
      cases ws with
      | nil => exact noTrailWs_of_no_ws hw.2
      | cons w2 ws2 =>
          rw [joinSp_cons_of_ne w (by simp)]
          have hne : joinSp (w2 :: ws2) ≠ [] :=
            joinSp_ne_nil (by simp) (fun v hv => (h v (List.mem_cons_of_mem w hv)).1)
          rw [noTrailWs_append w (by simp), noTrailWs_cons_of_ne 32 hne]
          exact ih (fun v hv => h v (List.mem_cons_of_mem w hv))

lemma normalizeWhitespace_joinSp {W : List Str}
    (h : ∀ w ∈ W, w ≠ [] ∧ ∀ c ∈ w, isWs c = false) :
    normalizeWhitespace (joinSp W) = joinSp W :=
  normalizeWhitespace_of_normed (wsOkAux_joinSp h false) (noLeadWs_joinSp h)
    (noTrailWs_joinSp h)

lemma mem_splitOnSp : ∀ {s : Str} {w : Str} {c : Nat},
    w ∈ splitOnSp s → c ∈ w → c ∈ s ∧ c ≠ 32 := by
  intro s
  induction s with
  | nil =>
      intro w c hw hc
      simp only [splitOnSp, List.mem_singleton] at hw
      subst hw
      cases hc
  | cons d rest ih =>
      intro w c hw hc
      by_cases hd : d = 32
      · subst hd
        simp only [splitOnSp, beq_self_eq_true, if_true, List.mem_cons] at hw
        rcases hw with hw | hw
        · subst hw; cases hc
        · obtain ⟨h1, h2⟩ := ih hw hc
          exact ⟨List.mem_cons_of_mem 32 h1, h2⟩
      · have hbeq : (d == 32) = false := by simpa using hd
        cases hr : splitOnSp rest with
        | nil =>
            simp only [splitOnSp, hbeq, if_false, hr, List.mem_singleton,
              Bool.false_eq_true] at hw
            subst hw
            simp only [List.mem_singleton] at hc
            subst hc
            exact ⟨List.mem_cons_self c rest, hd⟩
        | cons w2 ws2 =>
            simp only [splitOnSp, hbeq, if_false, hr, List.mem_cons,
              Bool.false_eq_true] at hw
            rcases hw with hw | hw
            · subst hw
              rcases List.mem_cons.mp hc with hc | hc
              · subst hc; exact ⟨List.mem_cons_self c rest, hd⟩
              · obtain ⟨h1, h2⟩ := ih (by rw [hr]; exact List.mem_cons_self w2 ws2) hc
                exact ⟨List.mem_cons_of_mem d h1, h2⟩
            · obtain ⟨h1, h2⟩ := ih (by rw [hr]; exact List.mem_cons_of_mem w2 hw) hc
              exact ⟨List.mem_cons_of_mem d h1, h2⟩

lemma wsOkAux_mem : ∀ {s : Str} (b : Bool) {c : Nat},
    wsOkAux b s = true → c ∈ s → isWs c = true → c = 32 := by
  intro s
  induction s with
  | nil => intro b c _ hc; cases hc
  | cons d rest ih =>
      intro b c h hc hws
      by_cases hd : isWs d
      · simp only [wsOkAux, hd, if_true, Bool.and_eq_true, beq_iff_eq] at h
        rcases List.mem_cons.mp hc with hc | hc
        · subst hc; exact h.1.2
        · exact ih true h.2 hc hws
      · simp only [wsOkAux, hd, if_false, Bool.false_eq_true] at h
        rcases List.mem_cons.mp hc with hc | hc
        · subst hc; exact absurd hws (by simp [hd])
        · exact ih false h hc hws

lemma splitWordsSp_nws_props {s : Str} {w : Str}
    (hw : w ∈ splitWordsSp (normalizeWhitespace s)) :
    w ≠ [] ∧ ∀ c ∈ w, isWs c = false := by
  obtain ⟨hmem, hne⟩ := List.mem_filter.mp hw
  refine ⟨by simpa using hne, fun c hc => ?_⟩
  obtain ⟨hcs, hc32⟩ := mem_splitOnSp hmem hc
  by_contra hws
  rw [Bool.not_eq_false] at hws
  exact hc32 (wsOkAux_mem false (wsOk_normalizeWhitespace s) hcs hws)

lemma titleWord_ne_nil {w : Str} (h : w ≠ []) : titleWord w ≠ [] := by
  cases w with
  | nil => exact absurd rfl h
  | cons c rest => simp [titleWord]

lemma titleWord_no_ws {w : Str} (h : ∀ c ∈ w, isWs c = false) :
    ∀ c ∈ titleWord w, isWs c = false := by
  cases w with
  | nil => intro c hc; cases hc
  | cons d rest =>
      intro c hc
      rcases List.mem_cons.mp hc with hc | hc
      · subst hc
        exact isWs_toUpperChar (h d (List.mem_cons_self d rest))
      · obtain ⟨e, he, hec⟩ := List.mem_map.mp hc
        subst hec
        exact isWs_toLowerChar (h e (List.mem_cons_of_mem d he))

lemma titleWord_idem (w : Str) : titleWord (titleWord w) = titleWord w := by
  cases w with
  | nil => rfl
  | cons c rest =>
      simp only [titleWord, toUpperChar_idem, List.map_map]
      congr 1
      exact List.map_congr_left (fun e _ => toLowerChar_idem e)

lemma toTitleCase_idem (s : Str) : toTitleCase (toTitleCase s) = toTitleCase s := by
  have hV : ∀ w ∈ splitWordsSp (normalizeWhitespace s),
      w ≠ [] ∧ ∀ c ∈ w, isWs c = false := fun w hw => splitWordsSp_nws_props hw
  set W := (splitWordsSp (normalizeWhitespace s)).map titleWord with hW
  have hWprops : ∀ w ∈ W, w ≠ [] ∧ ∀ c ∈ w, isWs c = false := by
    intro w hw
    obtain ⟨v, hv, hvw⟩ := List.mem_map.mp hw
    subst hvw
    exact ⟨titleWord_ne_nil (hV v hv).1, titleWord_no_ws (hV v hv).2⟩
  have hW32 : ∀ w ∈ W, w ≠ [] ∧ ∀ c ∈ w, c ≠ 32 := by
    intro w hw
    refine ⟨(hWprops w hw).1, fun c hc hc32 => ?_⟩
    have := (hWprops w hw).2 c hc
    rw [hc32] at this
    simp [isWs] at this
  show joinSp ((splitWordsSp (normalizeWhitespace (joinSp W))).map titleWord) = joinSp W
  rw [normalizeWhitespace_joinSp hWprops, splitWordsSp_joinSp hW32, hW,
    List.map_map]
  congr 1
  exact List.map_congr_left (fun v _ => titleWord_idem v)

/-- C7: the Normalize Whitespace transform collapses every run of
whitespace to a single space and trims both ends — its output has no
leading or trailing whitespace and every whitespace character left in it
is a single space not adjacent to other whitespace — and in particular the
Normalize Whitespace action built for the captured text
"  hello   world  " writes "hello world" to the clipboard. -/
theorem claim_normalize_whitespace_collapses_and_trims :
    (∀ s : Str, noLeadWs (normalizeWhitespace s) = true ∧
      noTrailWs (normalizeWhitespace s) = true ∧
      wsOkAux false (normalizeWhitespace s) = true) ∧
    normalizeWhitespace (strToCodes "  hello   world  ") = strToCodes "hello world" ∧
    (builtinActions (strToCodes "  hello   world  "))[3]? =
      some ⟨"Normalize Whitespace", Effect.setClip (strToCodes "hello world"), true,
        "sp:SP_BrowserReload"⟩ ∧
    (applyEffect (Effect.setClip (strToCodes "hello world")) initState).2 =
      [Out.writeClipboard (strToCodes "hello world")] :=
  ⟨fun s => ⟨noLeadWs_normalizeWhitespace s, noTrailWs_normalizeWhitespace s,
      wsOk_normalizeWhitespace s⟩,
    by decide, by decide, by decide⟩

/-- C8: the Title Case transform splits into words on whitespace runs,
uppercases each word-initial character and lowercases the rest; in
particular "hello world" becomes "Hello World", and a mixed-case input
with a whitespace run is normalised the same way. -/
theorem claim_title_case_scenario :
    toTitleCase (strToCodes "hello world") = strToCodes "Hello World" ∧
    toTitleCase (strToCodes "heLLo   WORLD") = strToCodes "Hello World" := by
  decide

/-- C9: all four text transforms are idempotent: applying Normalize
Whitespace, Title Case, UPPERCASE or lowercase twice equals applying it
once, for every input. -/
theorem claim_transforms_idempotent (s : Str) :
    normalizeWhitespace (normalizeWhitespace s) = normalizeWhitespace s ∧
    toTitleCase (toTitleCase s) = toTitleCase s ∧
    toUpperStr (toUpperStr s) = toUpperStr s ∧
    toLowerStr (toLowerStr s) = toLowerStr s :=
  ⟨normalizeWhitespace_idem s, toTitleCase_idem s, toUpperStr_idem s,
    toLowerStr_idem s⟩

/-- C1 (amended): each built-in clipboard write sets the suppression flag
immediately before writing, and the very next change notification on
either slot — the flag is global, not per-slot — is suppressed exactly
once: the flag resets to false, no candidate slot is recorded, the
debounce timer is not started and the popup is not re-opened; the flag is
never held across more than one change notification, so a second
notification is processed normally. -/
theorem claim_suppression_next_change_either_slot (t : Str) (s : CtrlState)
    (sl sl' : Slot) :
    ((setClipboardText t s).1.suppressNext = true ∧
      (setClipboardText t s).2 = [Out.writeClipboard t]) ∧
    ((setClipboardPlainText t s).1.suppressNext = true ∧
      (setClipboardPlainText t s).2 = [Out.writeClipboardPlain t]) ∧
    onChanged sl (setClipboardText t s).1 =
      ({ (setClipboardText t s).1 with suppressNext := false }, []) ∧
    onChanged sl (setClipboardPlainText t s).1 =
      ({ (setClipboardPlainText t s).1 with suppressNext := false }, []) ∧
    onChanged sl' (onChanged sl (setClipboardText t s).1).1 =
      ({ (setClipboardText t s).1 with suppressNext := false, pendingMode := sl', debounceArmed := true }, []) := by
  simp [setClipboardText, setClipboardPlainText, onChanged]

/-- C1 counterexample to the claim as stated: after a built-in write to
the clipboard slot, an intervening selection change notification consumes
the suppression flag, and the clipboard slot's own next change
notification is then processed as a candidate (it records the slot and
starts the debounce timer) instead of being suppressed. -/
theorem claim_suppression_per_slot_counterexample :
    (onChanged Slot.selection (setClipboardText (strToCodes "HI") initState).1).2 = [] ∧
    (onChanged Slot.selection
        (setClipboardText (strToCodes "HI") initState).1).1.suppressNext = false ∧
    (onChanged Slot.clipboard
        (onChanged Slot.selection
          (setClipboardText (strToCodes "HI") initState).1).1).1.debounceArmed = true ∧
    (onChanged Slot.clipboard
        (onChanged Slot.selection
          (setClipboardText (strToCodes "HI") initState).1).1).1.pendingMode =
      Slot.clipboard := by
  decide

/-- C4: while the popup is open, a further candidate-text event does not
open a second popup: the request is dropped rather than queued (no popup
output is produced, and no pending request is recorded beyond the
remembered last text), and the visible popup's state — visibility and
displayed content — is unchanged. -/
theorem claim_popup_open_drops_candidate (cfg : Config) (t : Str) (s : CtrlState)
    (h : s.popupVisible = true) :
    showMenuIfNeededWithText cfg t s =
      ({ s with lastText := if t = [] then s.lastText else t }, []) ∧
    (showMenuIfNeededWithText cfg t s).1.popupVisible = true ∧
    (showMenuIfNeededWithText cfg t s).1.popupContent = s.popupContent := by
  unfold showMenuIfNeededWithText showMenu
  by_cases ht : t = [] <;> cases s <;> simp_all

/-- C4 witness: the dropped-candidate behaviour at a concrete open-popup
state and candidate text. -/
theorem claim_popup_open_drops_candidate_witness :
    popupOpenState.popupVisible = true ∧
    (showMenuIfNeededWithText sampleCfg [104] popupOpenState).2 = [] ∧
    (showMenuIfNeededWithText sampleCfg [104] popupOpenState).1.popupContent =
      popupOpenState.popupContent := by
  have h := claim_popup_open_drops_candidate sampleCfg [104] popupOpenState (by decide)
  exact ⟨by decide, by rw [h.1], h.2.2⟩

/-- C2 counterexample to the claim as stated: with no external actions
configured, the labels of the popup's action list are not the five
built-ins the claim lists — the code inserts a sixth built-in, Paste and
Match Style, between Normalize Whitespace and Copy to Clipboard. -/
theorem claim_builtin_list_counterexample :
    (menuActions sampleCfg (strToCodes "hi")).map (fun a => a.label) ≠
      ["UPPERCASE", "lowercase", "Title Case", "Normalize Whitespace",
        "Copy to Clipboard"] ∧
    (menuActions sampleCfg (strToCodes "hi")).map (fun a => a.label) =
      ["UPPERCASE", "lowercase", "Title Case", "Normalize Whitespace",
        "Paste and Match Style", "Copy to Clipboard"] := by
  decide

/-- C2 (amended): every popup's action list is exactly the built-in
actions in the fixed order UPPERCASE, lowercase, Title Case, Normalize
Whitespace, Paste and Match Style, Copy to Clipboard — six built-ins, the
additional Paste and Match Style re-asserting the captured text through
plain mime data — followed by all loaded external actions in declaration
order, each enabled and invoking the command runner with the template
placeholder substituted by the literal captured text; in particular the
template consisting of a literal argument and a placeholder argument
expands with the captured text "hi" to the literal argument and "hi". -/
theorem claim_action_list_order (cfg : Config) (t : Str) (s : CtrlState)
    (h : s.popupVisible = false) :
    (showMenu cfg t s).2 = [Out.showPopup t (menuActions cfg t)] ∧
    menuActions cfg t =
      [ ⟨"UPPERCASE", Effect.setClip (toUpperStr t), true, "sp:SP_ArrowUp"⟩,
        ⟨"lowercase", Effect.setClip (toLowerStr t), true, "sp:SP_ArrowDown"⟩,
        ⟨"Title Case", Effect.setClip (toTitleCase t), true, "sp:SP_FileDialogDetailedView"⟩,
        ⟨"Normalize Whitespace", Effect.setClip (normalizeWhitespace t), true, "sp:SP_BrowserReload"⟩,
        ⟨"Paste and Match Style", Effect.setClipPlain t, true, "sp:SP_DialogResetButton"⟩,
        ⟨"Copy to Clipboard", Effect.setClip t, true, "sp:SP_DialogOpenButton"⟩ ] ++
      cfg.externals.map (fun e =>
        ⟨e.label, Effect.runExternal e.command (expandArgs e.args t), true, e.icon⟩) ∧
    strToCodes "\x7btext\x7d" = placeholder ∧
    expandArgs [strToCodes "--text", placeholder] (strToCodes "hi") =
      [strToCodes "--text", strToCodes "hi"] := by
  refine ⟨by simp [showMenu, h], rfl, by decide, by decide⟩

/-- C2 witness: the amended action-list shape at a concrete closed-popup
state, captured text and external action. -/
theorem claim_action_list_order_witness :
    initState.popupVisible = false ∧
    (showMenu sampleCfgExt (strToCodes "hi") initState).2 =
      [Out.showPopup (strToCodes "hi") (menuActions sampleCfgExt (strToCodes "hi"))] := by
  have h := claim_action_list_order sampleCfgExt (strToCodes "hi") initState (by decide)
  exact ⟨by decide, h.1⟩

lemma step_changeEvOf (cfg : Config) (env : Slot → Str) (sl : Slot) (s : CtrlState) :
    step cfg env (changeEvOf sl) s = onChanged sl s := by
  cases sl <;> rfl

lemma processEvents_changes (cfg : Config) (env : Slot → Str) :
    ∀ (l : List Slot) (lastSlot : Slot) (s : CtrlState), s.suppressNext = false →
      processEvents cfg env ((l ++ [lastSlot]).map changeEvOf) s =
        ({ s with pendingMode := lastSlot, debounceArmed := true }, []) := by
  intro l
  induction l with
  | nil =>
      intro lastSlot s h
      simp only [List.nil_append, List.map_cons, List.map_nil, processEvents,
        step_changeEvOf, onChanged, h, Bool.false_eq_true, if_neg, not_false_iff,
        List.append_nil]
  | cons a l ih =>
      intro lastSlot s h
      have hstep : step cfg env (changeEvOf a) s =
          ({ s with pendingMode := a, debounceArmed := true }, []) := by
        rw [step_changeEvOf]
        simp [onChanged, h]
      simp only [List.cons_append, List.map_cons, processEvents, hstep, List.append_eq]
      rw [ih lastSlot { s with pendingMode := a, debounceArmed := true } (by simp [h])]
      simp

/-- C3: within one burst the single-shot debounce timer is restarted
rather than queued — processing any burst of change notifications emits
nothing by itself and leaves the timer armed with the most recently
pending slot being the burst's last slot; the single fire that follows
evaluates that slot's current text and, when it trims non-empty and no
popup is open, produces exactly one popup show carrying it, disarms the
timer, and a second fire does nothing. -/
theorem claim_debounce_burst_single_show (cfg : Config) (env : Slot → Str)
    (l : List Slot) (lastSlot : Slot) (s : CtrlState)
    (hsup : s.suppressNext = false) (hvis : s.popupVisible = false)
    (htxt : trim (env lastSlot) ≠ []) :
    (processEvents cfg env ((l ++ [lastSlot]).map changeEvOf) s).2 = [] ∧
    (processEvents cfg env ((l ++ [lastSlot]).map changeEvOf) s).1.debounceArmed = true ∧
    (processEvents cfg env ((l ++ [lastSlot]).map changeEvOf) s).1.pendingMode = lastSlot ∧
    (step cfg env Ev.fire
        (processEvents cfg env ((l ++ [lastSlot]).map changeEvOf) s).1).2 =
      [Out.showPopup (trim (env lastSlot)) (menuActions cfg (trim (env lastSlot)))] ∧
    (step cfg env Ev.fire
        (processEvents cfg env ((l ++ [lastSlot]).map changeEvOf) s).1).1.popupVisible =
      true ∧
    (step cfg env Ev.fire
        (processEvents cfg env ((l ++ [lastSlot]).map changeEvOf) s).1).1.debounceArmed =
      false ∧
    (step cfg env Ev.fire
        (step cfg env Ev.fire
          (processEvents cfg env ((l ++ [lastSlot]).map changeEvOf) s).1).1).2 = [] := by
  rw [processEvents_changes cfg env l lastSlot s hsup]
  simp only [step, showMenuIfNeeded, showMenuIfNeededWithText, showMenu, htxt, hvis,
    if_true, if_neg, Bool.false_eq_true, not_false_iff]
  simp [htxt, hvis]

/-- C3 witness: a concrete two-notification burst (selection then
clipboard) from the initial state fires exactly one popup show carrying
the clipboard slot's trimmed text. -/
theorem claim_debounce_burst_single_show_witness :
    initState.suppressNext = false ∧ initState.popupVisible = false ∧
    trim (sampleEnv Slot.clipboard) ≠ [] ∧
    (step sampleCfg sampleEnv Ev.fire
        (processEvents sampleCfg sampleEnv
          (([Slot.selection] ++ [Slot.clipboard]).map changeEvOf) initState).1).2 =
      [Out.showPopup (trim (sampleEnv Slot.clipboard))
        (menuActions sampleCfg (trim (sampleEnv Slot.clipboard)))] := by
  have h := claim_debounce_burst_single_show sampleCfg sampleEnv [Slot.selection]
    Slot.clipboard initState (by decide) (by decide) (by decide)
  exact ⟨by decide, by decide, by decide, h.2.2.2.1⟩

/-- C10: the poll compares each slot's freshly read text only after
trimming it — when both slots' fresh reads trim to the stored last-known
values, the poll changes nothing and emits no event — and when a slot's
value changes to text that is empty after trimming, the stored value is
still updated but no popup request is made for that slot. -/
theorem claim_poll_trimmed_compare (cfg : Config) (rawClip rawSel : Str)
    (s : CtrlState) (hwl : cfg.wlPasteEnabled = false) :
    (trim rawClip = s.lastClipboardText → trim rawSel = s.lastSelectionText →
      pollClipboard cfg rawClip rawSel none none s = (s, [])) ∧
    (trim rawClip = [] → s.lastClipboardText ≠ [] →
      trim rawSel = s.lastSelectionText →
      pollClipboard cfg rawClip rawSel none none s =
        ({ s with lastClipboardText := [] }, [])) := by
  constructor
  · intro h1 h2
    simp [pollClipboard, effSlotText, wlReadsOf, hwl, h1, h2]
  · intro h1 h2 h3
    simp [pollClipboard, effSlotText, wlReadsOf, hwl, h1, h2, h3]

/-- C10 witness: with the reader disabled, a stored clipboard value that
changes to whitespace-only text is re-stored as empty with no popup
request and no other effect. -/
theorem claim_poll_trimmed_compare_witness :
    sampleCfg.wlPasteEnabled = false ∧
    trim [32] = ([] : Str) ∧
    pollClipboard sampleCfg [32] [] none none
        { initState with lastClipboardText := [97] } =
      ({ { initState with lastClipboardText := [97] } with lastClipboardText := [] },
        []) := by
  have h := claim_poll_trimmed_compare sampleCfg [32] []
    { initState with lastClipboardText := [97] } (by decide)
  exact ⟨by decide, by decide, h.2 (by decide) (by decide) (by decide)⟩

/-- C6: with the fallback external reader enabled, a poll in mode both
performs both fallback reads (clipboard side then selection side), mode
clipboard only the clipboard side, mode primary only the selection side,
each bounded by the 200ms timeout; and a fallback read that times out or
exits non-zero is treated as no data, so the slot's primary trimmed read
stands — a poll whose fallback reads both fail reaches exactly the state
a reader-disabled poll reaches, emitting only the extra read requests. -/
theorem claim_fallback_reader_modes (cfg : Config) (hwl : cfg.wlPasteEnabled = true) :
    (cfg.wlPasteMode = "both" →
      wlReadsOf cfg =
        [Out.wlRead false wlPasteTimeoutMs, Out.wlRead true wlPasteTimeoutMs]) ∧
    (cfg.wlPasteMode = "clipboard" →
      wlReadsOf cfg = [Out.wlRead false wlPasteTimeoutMs]) ∧
    (cfg.wlPasteMode = "primary" →
      wlReadsOf cfg = [Out.wlRead true wlPasteTimeoutMs]) ∧
    (∀ (raw : Str) (doRead : Bool), effSlotText doRead (trim raw) none = trim raw) ∧
    (∀ (raw out : Str) (doRead : Bool),
      effSlotText doRead (trim raw) (some (false, out)) = trim raw) ∧
    (∀ (rawClip rawSel : Str) (s : CtrlState),
      pollClipboard cfg rawClip rawSel none none s =
        ((pollClipboard { cfg with wlPasteEnabled := false } rawClip rawSel
            none none s).1,
          wlReadsOf cfg ++
            (pollClipboard { cfg with wlPasteEnabled := false } rawClip rawSel
              none none s).2)) := by
  refine ⟨?_, ?_, ?_, ?_, ?_, ?_⟩
  · intro hm; simp [wlReadsOf, hwl, hm]
  · intro hm; simp [wlReadsOf, hwl, hm]
  · intro hm; simp [wlReadsOf, hwl, hm]
  · intro raw doRead; cases doRead <;> simp [effSlotText, readWlPaste]
  · intro raw out doRead; cases doRead <;> simp [effSlotText, readWlPaste]
  · intro rawClip rawSel s
    have e1 : ∀ (b : Bool) (p : Str), effSlotText b p none = p := by
      intro b p; cases b <;> simp [effSlotText, readWlPaste]
    simp only [pollClipboard, e1]
    rw [show wlReadsOf { cfg with wlPasteEnabled := false } = [] from by
      simp [wlReadsOf]]
    simp only [List.nil_append]
    rw [List.append_assoc]
    rfl

/-- C6 witness: in mode both with the reader enabled, the poll performs
exactly the two fallback reads with the 200ms bound. -/
theorem claim_fallback_reader_modes_witness :
    sampleCfgExt.wlPasteEnabled = true ∧
    wlReadsOf sampleCfgExt =
      [Out.wlRead false wlPasteTimeoutMs, Out.wlRead true wlPasteTimeoutMs] := by
  have h := claim_fallback_reader_modes sampleCfgExt (by decide)
  exact ⟨by decide, h.1 rfl⟩

lemma countP_range_shift_lt (start e : Nat) : ∀ n : Nat,
    (List.range n).countP (fun c => decide (start + c < e)) = min (e - start) n := by
  intro n
  induction n with
  | zero => simp
  | succ n ih =>
      rw [List.range_succ, List.countP_append, ih]
      simp only [List.countP_cons, List.countP_nil]
      by_cases h : start + n < e
      · rw [decide_eq_true h]
        simp only [if_true]
        omega
      · rw [decide_eq_false h]
        simp only [Bool.false_eq_true, if_false]
        omega

/-- C5: for N enabled actions and page size P, each page renders at most P
action buttons; the row always has P columns plus two reserved
navigation columns exactly when paging is needed; if N ≤ P there is
exactly one page and no navigation control appears; if N > P the page
count is the rounding-up division ceil(N/P) (characterised by
P*(pages-1) < N ≤ P*pages), the two navigation buttons occupy the
reserved columns, the previous button is disabled exactly on the first
page and the next button is disabled exactly on the last page. -/
theorem claim_pagination (P N page : Nat) (hP : 1 ≤ P) :
    (gridCells P N page).countP isActionCell ≤ P ∧
    (gridCells P N page).length = P + (if P < N then 2 else 0) ∧
    (N ≤ P → totalPages P N = 1 ∧ ∀ c ∈ gridCells P N page, isNavCell c = false) ∧
    (P < N →
      totalPages P N = (N + P - 1) / P ∧
      N ≤ P * totalPages P N ∧
      P * (totalPages P N - 1) < N ∧
      (gridCells P N page)[P]? =
        some (Cell.navPrev (decide (0 < clampPage P N page))) ∧
      (gridCells P N page)[P + 1]? =
        some (Cell.navNext (decide (clampPage P N page + 1 < totalPages P N))) ∧
      (¬0 < clampPage P N page ↔ clampPage P N page = 0) ∧
      (¬clampPage P N page + 1 < totalPages P N ↔
        clampPage P N page = totalPages P N - 1)) := by
  have hmax : max 1 P = P := Nat.max_eq_right hP
  have hdiv1 : P < N → totalPages P N = (N + P - 1) / P := by
    intro hN
    simp [totalPages, hN, hmax]
  have hdivs : P < N →
      N ≤ P * totalPages P N ∧ P * (totalPages P N - 1) < N ∧
        1 ≤ totalPages P N := by
    intro hN
    rw [hdiv1 hN]
    have h1 : ((N + P - 1) / P) * P ≤ N + P - 1 := Nat.div_mul_le_self _ _
    have h2 : N + P - 1 < ((N + P - 1) / P + 1) * P :=
      (Nat.div_lt_iff_lt_mul hP).mp (Nat.lt_succ_self _)
    have htp : 1 ≤ (N + P - 1) / P := (Nat.le_div_iff_mul_le hP).mpr (by omega)
    rw [Nat.add_mul, Nat.one_mul] at h2
    refine ⟨?_, ?_, htp⟩
    · rw [Nat.mul_comm P ((N + P - 1) / P)]
      generalize hM : ((N + P - 1) / P) * P = M at h1 h2 ⊢
      omega
    · rw [Nat.mul_comm P ((N + P - 1) / P - 1), Nat.sub_mul, Nat.one_mul]
      generalize hM : ((N + P - 1) / P) * P = M at h1 h2 ⊢
      omega
  have hnolast : ∀ col : Nat, P ≤ col →
      ¬clampPage P N page * max 1 P + col <
        min N (clampPage P N page * max 1 P + max 1 P) := by
    intro col hcol
    rw [hmax]
    have := Nat.min_le_right N (clampPage P N page * P + P)
    omega
  refine ⟨?_, ?_, ?_, ?_⟩
  · unfold gridCells
    rw [List.countP_map]
    rw [List.countP_congr (q := fun col => decide (clampPage P N page * max 1 P + col <
        min N (clampPage P N page * max 1 P + max 1 P))) ?_]
    · rw [countP_range_shift_lt]
      have hend : min N (clampPage P N page * max 1 P + max 1 P) -
          clampPage P N page * max 1 P ≤ P := by
        rw [hmax]
        have := Nat.min_le_right N (clampPage P N page * P + P)
        omega
      exact le_trans (Nat.min_le_left _ _) hend
    · intro col _
      simp only [Function.comp_apply]
      by_cases h : clampPage P N page * max 1 P + col <
          min N (clampPage P N page * max 1 P + max 1 P)
      · rw [if_pos h, decide_eq_true h]
        exact Iff.rfl
      · rw [if_neg h, decide_eq_false h]
        constructor
        · intro hiff
          exfalso
          revert hiff
          split_ifs <;> simp [isActionCell]
        · intro hiff
          cases hiff
  · simp [gridCells]
  · intro hN
    have hnp : ¬P < N := Nat.not_lt.mpr hN
    refine ⟨by simp [totalPages, hnp], ?_⟩
    intro c hc
    unfold gridCells at hc
    simp only [List.mem_map, List.mem_range] at hc
    obtain ⟨col, hcol, rfl⟩ := hc
    by_cases h : clampPage P N page * max 1 P + col <
        min N (clampPage P N page * max 1 P + max 1 P)
    · rw [if_pos h]
      rfl
    · rw [if_neg h]
      rw [if_neg (by exact fun hand => hnp hand.1), if_neg (by exact fun hand => hnp hand.1)]
      rfl
  · intro hN
    obtain ⟨ha, hb, htp1⟩ := hdivs hN
    have hclamp : clampPage P N page ≤ totalPages P N - 1 :=
      Nat.min_le_right _ _
    refine ⟨hdiv1 hN, ha, hb, ?_, ?_, ?_, ?_⟩
    · unfold gridCells
      rw [List.getElem?_map]
      have hcols : (List.range (P + (if P < N then 2 else 0)))[P]? = some P := by
        rw [List.getElem?_range (by simp [hN])]
      rw [hcols]
      simp only [Option.map_some']
      rw [if_neg (hnolast P (le_refl P))]
      rw [if_pos ⟨hN, by rw [if_pos hN]; omega⟩]
    · unfold gridCells
      rw [List.getElem?_map]
      have hcols : (List.range (P + (if P < N then 2 else 0)))[P + 1]? =
          some (P + 1) := by
        rw [List.getElem?_range (by simp [hN])]
      rw [hcols]
      simp only [Option.map_some']
      rw [if_neg (hnolast (P + 1) (Nat.le_succ P))]
      rw [if_neg ?c1, if_pos ?c2]
      case c1 =>
        rintro ⟨h1, h2⟩
        rw [if_pos hN] at h2
        omega
      case c2 => exact ⟨hN, by rw [if_pos hN]; omega⟩
    · omega
    · omega

/-- C5 witness: the pagination shape at page size 2 with 5 actions on
page 1: at most two action buttons, and the previous-page control sits in
the first reserved column with its enabled flag from the clamped page. -/
theorem claim_pagination_witness :
    1 ≤ 2 ∧ (gridCells 2 5 1).countP isActionCell ≤ 2 ∧
    (gridCells 2 5 1)[2]? = some (Cell.navPrev (decide (0 < clampPage 2 5 1))) := by
  have h := claim_pagination 2 5 1 (by decide)
  exact ⟨by decide, h.1, (h.2.2.2 (by decide)).2.2.2.1⟩
